import Mathlib

/-!
# Verification of the canvas graph-interaction engine

Shallow embedding of the node/port/edge editor implemented in
`src/components/Canvas.tsx`.  Pixel coordinates (TS `number`) are modelled
as rationals; ids (TS strings) are modelled as `String`.  The TS calls to
`Date.now()` that mint fresh ids (`input-${Date.now()}`, `conn_${Date.now()}`)
are modelled by a millisecond clock carried in the state: each release event
happens at a timestamp strictly larger than the previously observed one, and
the seeded literal ids (`input-1` … `input-4`) use numeric suffixes far below
any real clock value, which the initial clock value 4 reflects.  The two
`Date.now()` reads inside a single release are modelled as one timestamp.
-/

/-- Decimal digit list of a natural number, least significant digit last;
models the JavaScript template interpolation of a number into a string. -/
def natDigits (n : Nat) : List Char :=
  if h : n < 10 then [Char.ofNat (48 + n)]
  else natDigits (n / 10) ++ [Char.ofNat (48 + n % 10)]
decreasing_by exact Nat.div_lt_self (by omega) (by omega)

/-- Decimal string of a natural number, as produced by the template literal. -/
def natStr (n : Nat) : String := String.mk (natDigits n)

/-- The id minted by the source for a port created at timestamp `t`:
the TS expression is the template string with head `input-`. -/
def inputStamp (t : Nat) : String := "input-" ++ natStr t

/-- The id minted by the source for a connection created at timestamp `t`:
the TS expression is the template string with head `conn_`. -/
def connStamp (t : Nat) : String := "conn_" ++ natStr t

/-- `NodeInput` from Canvas.tsx. -/
structure NodeInput where
  id : String
  connected : Bool
deriving DecidableEq

/-- `NodeData` from Canvas.tsx. -/
structure NodeData where
  id : String
  x : ℚ
  y : ℚ
  title : String
  description : String
  inputs : List NodeInput
deriving DecidableEq

/-- `ConnectionData` from Canvas.tsx. -/
structure ConnectionData where
  id : String
  fromNodeId : String
  toNodeId : String
  toInputId : String
deriving DecidableEq

/-- The drag-session record held in the `dragState` React state. -/
structure DragState where
  isDragging : Bool
  fromNodeId : Option String
  currentX : ℚ
  currentY : ℚ
  hoveredNodeId : Option String
  hoveredInputId : Option String
  isInTapZone : Bool
  isDisconnecting : Bool
  disconnectedConnectionId : Option String
  canCreateNewInput : Bool
deriving DecidableEq

/-- The idle drag state the source resets to. -/
def idleDrag : DragState :=
  ⟨false, none, 0, 0, none, none, false, false, none, false⟩

/-- The whole component state: the three React state cells plus the clock
modelling the last observed `Date.now()` value. -/
structure State where
  nodes : List NodeData
  connections : List ConnectionData
  drag : DragState
  clock : Nat
deriving DecidableEq

/-- The predicate `conn.toNodeId === nodeId && conn.toInputId === inputId`
used by `handleStartDisconnection` and `handleRemoveInput`. -/
def isTarget (nid pid : String) (c : ConnectionData) : Bool :=
  c.toNodeId == nid && c.toInputId == pid

/-- `calculateNodeHeight` from Canvas.tsx: base height 48 for at most one
input, otherwise `max(48, count*12 + (count-1)*8 + 16)`. -/
def calculateNodeHeight (inputCount : Nat) : ℚ :=
  if inputCount ≤ 1 then 48
  else max 48 ((inputCount : ℚ) * 12 + ((inputCount : ℚ) - 1) * 8 + 16)

/-- `getNodeHeight` from Canvas.tsx: effective height, counting one extra
virtual slot when the drag session shows the ADD input on this node. -/
def getNodeHeight (drag : DragState) (node : NodeData) : ℚ :=
  let allInputsConnected := node.inputs.all (·.connected)
  let shouldShowAdd := drag.isDragging && (drag.hoveredNodeId == some node.id)
      && drag.canCreateNewInput && allInputsConnected
  calculateNodeHeight (if shouldShowAdd then node.inputs.length + 1 else node.inputs.length)

/-- `getInputPosition` from Canvas.tsx: anchor of the input at `inputIndex`;
an index at or beyond the stored count addresses the virtual ADD slot. -/
def getInputPosition (drag : DragState) (node : NodeData) (inputIndex : Nat) : ℚ × ℚ :=
  let inputHeight : ℚ := 12
  let spacing : ℚ := 8
  let originalInputCount := node.inputs.length
  let relativeTop : ℚ :=
    if inputIndex ≥ originalInputCount then
      if originalInputCount = 0 then
        getNodeHeight drag node / 2 - inputHeight / 2
      else
        let originalHeight := calculateNodeHeight originalInputCount
        let originalGroupHeight :=
          (originalInputCount : ℚ) * inputHeight + ((originalInputCount : ℚ) - 1) * spacing
        let originalGroupStartY :=
          if originalInputCount = 1 then originalHeight / 2 - inputHeight / 2
          else (originalHeight - originalGroupHeight) / 2
        originalGroupStartY + (originalInputCount : ℚ) * (inputHeight + spacing)
    else
      let originalHeight := calculateNodeHeight originalInputCount
      if originalInputCount = 1 then originalHeight / 2 - inputHeight / 2
      else
        let originalGroupHeight :=
          (originalInputCount : ℚ) * inputHeight + ((originalInputCount : ℚ) - 1) * spacing
        let originalGroupStartY := (originalHeight - originalGroupHeight) / 2
        originalGroupStartY + (inputIndex : ℚ) * (inputHeight + spacing)
  (node.x - 8, node.y + relativeTop + inputHeight / 2)

/-- `isPointInNodeTapZone` from Canvas.tsx: broad capture rectangle around
the node body (horizontal zone 120, vertical zone 16). -/
def isPointInNodeTapZone (drag : DragState) (mx my : ℚ) (node : NodeData) : Bool :=
  let nodeHeight := getNodeHeight drag node
  let horizontalZoneWidth : ℚ := 120
  let verticalZoneHeight : ℚ := 16
  decide (node.x - horizontalZoneWidth ≤ mx ∧ mx ≤ node.x + 48 + horizontalZoneWidth ∧
    node.y - verticalZoneHeight / 2 ≤ my ∧ my ≤ node.y + nodeHeight + verticalZoneHeight / 2)

/-- `isPointInInputZone` from Canvas.tsx: thin horizontal band around the
input's anchor, with the same 120px horizontal extension. -/
def isPointInInputZone (drag : DragState) (mx my : ℚ) (node : NodeData) (inputIndex : Nat) : Bool :=
  let inputPos := getInputPosition drag node inputIndex
  let horizontalZoneWidth : ℚ := 120
  let verticalZoneHeight : ℚ := 16
  decide (node.x - horizontalZoneWidth ≤ mx ∧ mx ≤ node.x + 48 + horizontalZoneWidth ∧
    inputPos.2 - verticalZoneHeight / 2 ≤ my ∧ my ≤ inputPos.2 + verticalZoneHeight / 2)

/-- Result of one hover resolution pass of `handleMouseMove`: the four local
variables the loop computes. -/
structure HoverResult where
  hoveredNodeId : Option String
  hoveredInputId : Option String
  isInTapZone : Bool
  canCreateNewInput : Bool
deriving DecidableEq

/-- The inner `for (let i = 0; ...)` loop of `handleMouseMove`: first
unconnected input of the node whose zone contains the pointer. -/
def findFreeInputAux (drag : DragState) (mx my : ℚ) (node : NodeData) :
    Nat → List NodeInput → Option String
  | _, [] => none
  | i, inp :: rest =>
    if !inp.connected && isPointInInputZone drag mx my node i then some inp.id
    else findFreeInputAux drag mx my node (i + 1) rest

/-- The outer `for (const node of nodes)` loop of `handleMouseMove`: skip the
origin node, try a free-input match first, else a capture-zone match when all
inputs of that node are connected, else continue with the next node. -/
def resolveHover (drag : DragState) (mx my : ℚ) : List NodeData → HoverResult
  | [] => ⟨none, none, false, false⟩
  | node :: rest =>
    if drag.fromNodeId = some node.id then resolveHover drag mx my rest
    else
      match findFreeInputAux drag mx my node 0 node.inputs with
      | some inputId => ⟨some node.id, some inputId, true, false⟩
      | none =>
        if isPointInNodeTapZone drag mx my node && node.inputs.all (·.connected) then
          ⟨some node.id, none, true, true⟩
        else resolveHover drag mx my rest

/-- `updateNodePosition` from Canvas.tsx. -/
def updateNodePosition (nid : String) (px py : ℚ) (s : State) : State :=
  { s with nodes := s.nodes.map fun node =>
      if node.id = nid then { node with x := px, y := py } else node }

/-- `handleStartConnection` from Canvas.tsx: start a drag from a node's
output; the canvas rectangle is assumed available. -/
def handleStartConnection (nid : String) (mx my : ℚ) (s : State) : State :=
  { s with drag := ⟨true, some nid, mx, my, none, none, false, false, none, false⟩ }

/-- `handleStartDisconnection` from Canvas.tsx: find the connection ending at
the given input; if present, clear that input's connected flag, drop the
connection, and start a drag from the connection's source node. -/
def handleStartDisconnection (nid pid : String) (mx my : ℚ) (s : State) : State :=
  match s.connections.find? (isTarget nid pid) with
  | none => s
  | some c =>
    { s with
      nodes := s.nodes.map fun node =>
        if node.id = nid then
          { node with inputs := node.inputs.map fun inp =>
              if inp.id = pid then { inp with connected := false } else inp }
        else node,
      connections := s.connections.filter fun conn => conn.id ≠ c.id,
      drag := ⟨true, some c.fromNodeId, mx, my, none, none, false, true, some c.id, false⟩ }

/-- `handleRemoveInput` from Canvas.tsx: drop the input from its node and
every connection targeting it. -/
def handleRemoveInput (nid pid : String) (s : State) : State :=
  { s with
    nodes := s.nodes.map fun node =>
      if node.id = nid then
        { node with inputs := node.inputs.filter fun inp => inp.id ≠ pid }
      else node,
    connections := s.connections.filter fun conn => !isTarget nid pid conn }

/-- `handleMouseMove` from Canvas.tsx: while dragging, re-run hover
resolution against the current nodes, keeping the pre-move drag state for
the zone geometry (the source closures capture the current `dragState`). -/
def handleMouseMove (mx my : ℚ) (s : State) : State :=
  if s.drag.isDragging then
    let r := resolveHover s.drag mx my s.nodes
    { s with drag := { s.drag with
        currentX := mx, currentY := my,
        hoveredNodeId := r.hoveredNodeId, hoveredInputId := r.hoveredInputId,
        isInTapZone := r.isInTapZone, canCreateNewInput := r.canCreateNewInput } }
  else s

/-- `handleEndConnection` from Canvas.tsx at timestamp `t`.  The guard
mirrors the JS truthiness tests (a string is truthy iff nonempty).  The
source's two create-new-input arms (target with exactly one input versus
more) perform identical state mutations — the split only retriggers a CSS
animation — so they are rendered once.  The drag state is always reset. -/
def handleEndConnection (t : Nat) (s : State) : State :=
  let committed : State :=
    match s.drag.fromNodeId, s.drag.hoveredNodeId with
    | some f, some nid =>
      if s.drag.isDragging = true ∧ f ≠ "" ∧ nid ≠ "" ∧ s.drag.isInTapZone = true then
        if s.drag.canCreateNewInput = true then
          { s with
            nodes := s.nodes.map fun node =>
              if node.id = nid then
                { node with inputs := node.inputs ++ [⟨inputStamp t, true⟩] }
              else node,
            connections := s.connections ++ [⟨connStamp t, f, nid, inputStamp t⟩] }
        else
          match s.drag.hoveredInputId with
          | some pid =>
            if pid ≠ "" then
              { s with
                connections := s.connections ++ [⟨connStamp t, f, nid, pid⟩],
                nodes := s.nodes.map fun node =>
                  if node.id = nid then
                    { node with inputs := node.inputs.map fun inp =>
                        if inp.id = pid then { inp with connected := true } else inp }
                  else node }
            else s
          | none => s
      else s
    | _, _ => s
  { committed with drag := idleDrag, clock := t }

/-- The three seeded nodes of the `useState` initialiser. -/
def initNodes : List NodeData :=
  [⟨"1", 150, 100, "Code", "Change flight sheet", [⟨"input-1", false⟩]⟩,
   ⟨"2", 400, 300, "Code", "LTC", [⟨"input-1", true⟩]⟩,
   ⟨"3", 700, 200, "Code", "BTC",
     [⟨"input-1", false⟩, ⟨"input-2", false⟩, ⟨"input-3", false⟩, ⟨"input-4", false⟩]⟩]

/-- The seeded connection of the `useState` initialiser. -/
def initConnections : List ConnectionData :=
  [⟨"conn1", "1", "2", "input-1"⟩]

/-- The initial component state.  The clock starts at 4: the seeded ids use
numeric suffixes 1–4, all below any timestamp `Date.now()` can return. -/
def initState : State := ⟨initNodes, initConnections, idleDrag, 4⟩

/-- One public operation of the engine, as dispatched by the component's
event handlers.  Release events consume `Date.now()`, modelled by a
timestamp strictly above the last observed clock value. -/
inductive Step : State → State → Prop where
  | startConnection (s : State) (nid : String) (mx my : ℚ) :
      Step s (handleStartConnection nid mx my s)
  | startDisconnection (s : State) (nid pid : String) (mx my : ℚ) :
      Step s (handleStartDisconnection nid pid mx my s)
  | pointerMove (s : State) (mx my : ℚ) :
      Step s (handleMouseMove mx my s)
  | endConnection (s : State) (t : Nat) (ht : s.clock < t) :
      Step s (handleEndConnection t s)
  | removeInput (s : State) (nid pid : String) :
      Step s (handleRemoveInput nid pid s)
  | moveNode (s : State) (nid : String) (px py : ℚ) :
      Step s (updateNodePosition nid px py s)

/-- States reachable from the initial graph through the public operations. -/
def Reachable (s : State) : Prop := Relation.ReflTransGen Step initState s

/-- Inductive invariant tying port flags to the connection list, with the
id-freshness bookkeeping needed to keep minted ids from colliding. -/
structure GraphInv (s : State) : Prop where
  nodupNodeIds : (s.nodes.map (·.id)).Nodup
  nodupInputIds : ∀ n ∈ s.nodes, (n.inputs.map (·.id)).Nodup
  nodupConnIds : (s.connections.map (·.id)).Nodup
  flagCount : ∀ n ∈ s.nodes, ∀ p ∈ n.inputs,
    s.connections.countP (isTarget n.id p.id) = if p.connected then 1 else 0
  inputBound : ∀ n ∈ s.nodes, ∀ p ∈ n.inputs, ∃ k ≤ s.clock, p.id = inputStamp k
  connBound : ∀ c ∈ s.connections, c.id = "conn1" ∨ ∃ k ≤ s.clock, c.id = connStamp k
  targetBound : ∀ c ∈ s.connections, ∃ k ≤ s.clock, c.toInputId = inputStamp k
  hoverSafe : ∀ nid pid, s.drag.hoveredNodeId = some nid → s.drag.hoveredInputId = some pid →
    (∃ k ≤ s.clock, pid = inputStamp k) ∧
    ∀ n ∈ s.nodes, n.id = nid → ∀ p ∈ n.inputs, p.id = pid → p.connected = false

/-- A saturated node (every input connected) used to exhibit capture-zone
preemption: it sits first in the node list. -/
def cexNodeA : NodeData := ⟨"A", 0, 0, "Code", "a", [⟨"a1", true⟩]⟩

/-- A node with a free input whose tap zone also contains the probe pointer,
listed after the saturated node. -/
def cexNodeB : NodeData := ⟨"B", 0, 30, "Code", "b", [⟨"b1", false⟩]⟩

/-- Node list for the hover-priority counterexample. -/
def cexNodesC2 : List NodeData := [cexNodeA, cexNodeB]

/-- Drag session for the hover-priority counterexample: dragging from a node
that is neither A nor B, nothing hovered yet. -/
def cexDragC2 : DragState := ⟨true, some "9", 0, 0, none, none, false, false, none, false⟩

/-- State for the missing-safety-net counterexample: mid-drag from node 1
with the hover resolved onto node 2's input-1, which is already connected. -/
def cexStateC3 : State :=
  ⟨initNodes, initConnections,
   ⟨true, some "1", 0, 0, some "2", some "input-1", true, false, none, false⟩, 4⟩

/-- State for the malformed-session counterexample: mid-drag whose origin id
refers to no node, with the hover resolved onto node 3's free input-1. -/
def cexStateC5 : State :=
  ⟨initNodes, initConnections,
   ⟨true, some "ghost", 0, 0, some "3", some "input-1", true, false, none, false⟩, 4⟩

theorem natDigits_of_lt {n : Nat} (h : n < 10) : natDigits n = [Char.ofNat (48 + n)] := by
  rw [natDigits]
  simp [h]

theorem natDigits_of_ge {n : Nat} (h : 10 ≤ n) :
    natDigits n = natDigits (n / 10) ++ [Char.ofNat (48 + n % 10)] := by
  rw [natDigits]
  simp [Nat.not_lt.mpr h]

theorem natDigits_ne_nil (n : Nat) : natDigits n ≠ [] := by
  by_cases h : n < 10
  · rw [natDigits_of_lt h]
    simp
  · rw [natDigits_of_ge (Nat.not_lt.mp h)]
    simp

theorem digitChar_inj : ∀ a < 10, ∀ b < 10,
    Char.ofNat (48 + a) = Char.ofNat (48 + b) → a = b := by decide

theorem natDigits_inj : ∀ a b : Nat, natDigits a = natDigits b → a = b := by
  intro a
  induction a using Nat.strong_induction_on with
  | _ a ih =>
    intro b h
    by_cases ha : a < 10 <;> by_cases hb : b < 10
    · rw [natDigits_of_lt ha, natDigits_of_lt hb] at h
      exact digitChar_inj a ha b hb (by injection h)
    · rw [natDigits_of_lt ha, natDigits_of_ge (Nat.not_lt.mp hb)] at h
      have hlen := congrArg List.length h
      simp at hlen
      exact absurd hlen (natDigits_ne_nil (b / 10))
    · rw [natDigits_of_ge (Nat.not_lt.mp ha), natDigits_of_lt hb] at h
      have hlen := congrArg List.length h
      simp at hlen
      exact absurd hlen (natDigits_ne_nil (a / 10))
    · rw [natDigits_of_ge (Nat.not_lt.mp ha), natDigits_of_ge (Nat.not_lt.mp hb)] at h
      have hsplit := List.append_inj' h (by simp)
      have hdiv : a / 10 = b / 10 :=
        ih (a / 10) (Nat.div_lt_self (by omega) (by omega)) (b / 10) hsplit.1
      have hmod : a % 10 = b % 10 := by
        have hc : Char.ofNat (48 + a % 10) = Char.ofNat (48 + b % 10) := by
          injection hsplit.2
        exact digitChar_inj (a % 10) (Nat.mod_lt _ (by omega)) (b % 10)
          (Nat.mod_lt _ (by omega)) hc
      omega

theorem string_data_append (a b : String) : (a ++ b).data = a.data ++ b.data := rfl

theorem string_data_mk (l : List Char) : (String.mk l).data = l := rfl

theorem inputStamp_inj {a b : Nat} (h : inputStamp a = inputStamp b) : a = b := by
  have hd := congrArg String.data h
  simp only [inputStamp, natStr, string_data_append, string_data_mk] at hd
  exact natDigits_inj a b (List.append_cancel_left hd)

theorem connStamp_inj {a b : Nat} (h : connStamp a = connStamp b) : a = b := by
  have hd := congrArg String.data h
  simp only [connStamp, natStr, string_data_append, string_data_mk] at hd
  exact natDigits_inj a b (List.append_cancel_left hd)

theorem conn1_ne_connStamp (t : Nat) : "conn1" ≠ connStamp t := by
  intro h
  have hd := congrArg String.data h
  simp only [connStamp, natStr, string_data_append, string_data_mk] at hd
  simp at hd

theorem inputStamp_one : inputStamp 1 = "input-1" := by
  simp [inputStamp, natStr, natDigits_of_lt]

theorem inputStamp_two : inputStamp 2 = "input-2" := by
  simp [inputStamp, natStr, natDigits_of_lt]

theorem inputStamp_three : inputStamp 3 = "input-3" := by
  simp [inputStamp, natStr, natDigits_of_lt]

theorem inputStamp_four : inputStamp 4 = "input-4" := by
  simp [inputStamp, natStr, natDigits_of_lt]

/-- Claim C7: `calculateNodeHeight` is non-decreasing in the port count,
equals the base height 48 for counts 0 and 1, and for larger counts equals
`max 48 (count*12 + (count-1)*8 + 16)` with port height 12, gap 8 and
margins 8 + 8 = 16. -/
theorem c7_node_height :
    Monotone calculateNodeHeight ∧
    calculateNodeHeight 0 = 48 ∧ calculateNodeHeight 1 = 48 ∧
    ∀ n : Nat, 1 < n →
      calculateNodeHeight n = max 48 ((n : ℚ) * 12 + ((n : ℚ) - 1) * 8 + 16) := by
  refine ⟨monotone_nat_of_le_succ ?_, by norm_num [calculateNodeHeight],
    by norm_num [calculateNodeHeight], ?_⟩
  · intro n
    match n with
    | 0 => norm_num [calculateNodeHeight]
    | 1 => norm_num [calculateNodeHeight]
    | (k + 2) =>
      rw [calculateNodeHeight, calculateNodeHeight, if_neg (by omega), if_neg (by omega)]
      apply max_le_max le_rfl
      push_cast
      linarith
  · intro n hn
    rw [calculateNodeHeight, if_neg (by omega)]

/-- Witness for C7 at concrete port counts. -/
theorem c7_node_height_witness :
    calculateNodeHeight 1 ≤ calculateNodeHeight 3 ∧
    calculateNodeHeight 2 = max 48 ((2 : ℚ) * 12 + ((2 : ℚ) - 1) * 8 + 16) :=
  ⟨c7_node_height.1 (by norm_num), c7_node_height.2.2.2 2 (by norm_num)⟩

/-- Claim C6: the anchors of the first `k` real ports do not depend on the
drag session at all (so showing the virtual ADD slot cannot move them), and
the virtual slot (index `k`) sits exactly one port-height-plus-gap below the
last real port. -/
theorem c6_stacking_stability :
    (∀ (d1 d2 : DragState) (node : NodeData) (i : Nat), i < node.inputs.length →
      getInputPosition d1 node i = getInputPosition d2 node i) ∧
    (∀ (d : DragState) (node : NodeData), 1 ≤ node.inputs.length →
      getInputPosition d node node.inputs.length =
        (node.x - 8, (getInputPosition d node (node.inputs.length - 1)).2 + (12 + 8))) := by
  constructor
  · intro d1 d2 node i h
    have hnot : ¬ (i ≥ node.inputs.length) := Nat.not_le.mpr h
    simp [getInputPosition, hnot]
  · intro d node h
    rcases eq_or_lt_of_le h with h1 | h2
    · have hlen : node.inputs.length = 1 := h1.symm
      simp [getInputPosition, hlen, calculateNodeHeight]
      ring
    · have hk0 : ¬ (node.inputs.length = 0) := by omega
      have hk1 : ¬ (node.inputs.length = 1) := by omega
      have hlt : ¬ (node.inputs.length - 1 ≥ node.inputs.length) := by omega
      have hcast : ((node.inputs.length - 1 : Nat) : ℚ) = (node.inputs.length : ℚ) - 1 := by
        push_cast [Nat.cast_sub (by omega : 1 ≤ node.inputs.length)]
        ring
      simp [getInputPosition, hk0, hk1, hlt, hcast]
      ring

/-- Witness for C6 at a concrete one-port node and two different drags. -/
theorem c6_stacking_stability_witness :
    getInputPosition idleDrag cexNodeB 0 = getInputPosition cexDragC2 cexNodeB 0 ∧
    getInputPosition idleDrag cexNodeB 1 =
      (cexNodeB.x - 8, (getInputPosition idleDrag cexNodeB 0).2 + (12 + 8)) :=
  ⟨c6_stacking_stability.1 idleDrag cexDragC2 cexNodeB 0 (by simp [cexNodeB]),
   by
    have := c6_stacking_stability.2 idleDrag cexNodeB (by simp [cexNodeB])
    simpa [cexNodeB] using this⟩

theorem findFreeInputAux_spec (drag : DragState) (mx my : ℚ) (node : NodeData) :
    ∀ (i : Nat) (l : List NodeInput) (pid : String),
      findFreeInputAux drag mx my node i l = some pid →
      ∃ inp ∈ l, inp.id = pid ∧ inp.connected = false := by
  intro i l
  induction l generalizing i with
  | nil => intro pid h; simp [findFreeInputAux] at h
  | cons inp rest ih =>
    intro pid h
    rw [findFreeInputAux] at h
    split at h
    · rename_i hc
      injection h with h
      refine ⟨inp, List.mem_cons_self inp rest, h, ?_⟩
      have := (Bool.and_eq_true _ _).mp hc
      simpa using this.1
    · obtain ⟨inp', hmem, hrest⟩ := ih (i + 1) pid h
      exact ⟨inp', List.mem_cons_of_mem _ hmem, hrest⟩

theorem resolveHover_spec (drag : DragState) (mx my : ℚ) : ∀ (nodes : List NodeData),
    resolveHover drag mx my nodes = ⟨none, none, false, false⟩ ∨
    ∃ n ∈ nodes, drag.fromNodeId ≠ some n.id ∧
      ((∃ inp ∈ n.inputs, inp.connected = false ∧
          resolveHover drag mx my nodes = ⟨some n.id, some inp.id, true, false⟩) ∨
       (n.inputs.all (·.connected) = true ∧ isPointInNodeTapZone drag mx my n = true ∧
          resolveHover drag mx my nodes = ⟨some n.id, none, true, true⟩)) := by
  intro nodes
  induction nodes with
  | nil => left; rfl
  | cons node rest ih =>
    by_cases hskip : drag.fromNodeId = some node.id
    · rw [resolveHover, if_pos hskip]
      rcases ih with h0 | ⟨n, hn, hne, hcase⟩
      · left; exact h0
      · right; exact ⟨n, List.mem_cons_of_mem _ hn, hne, hcase⟩
    · rw [resolveHover, if_neg hskip]
      cases hfind : findFreeInputAux drag mx my node 0 node.inputs with
      | some pid =>
        right
        obtain ⟨inp, hmem, hid, hconn⟩ := findFreeInputAux_spec drag mx my node 0 _ pid hfind
        exact ⟨node, List.mem_cons_self node rest, hskip,
          Or.inl ⟨inp, hmem, hconn, by rw [hid]⟩⟩
      | none =>
        by_cases hcap :
            (isPointInNodeTapZone drag mx my node && node.inputs.all (·.connected)) = true
        · rw [if_pos hcap]
          right
          have hparts := (Bool.and_eq_true _ _).mp hcap
          exact ⟨node, List.mem_cons_self node rest, hskip,
            Or.inr ⟨hparts.2, hparts.1, rfl⟩⟩
        · rw [if_neg hcap]
          rcases ih with h0 | ⟨n, hn, hne, hcase⟩
          · left; exact h0
          · right; exact ⟨n, List.mem_cons_of_mem _ hn, hne, hcase⟩

/-- Claim C8: hover resolution never targets the drag session's origin node:
whatever node id it resolves, that id differs from the session's origin. -/
theorem c8_no_self_connection (drag : DragState) (mx my : ℚ) (nodes : List NodeData)
    (nid : String) (h : (resolveHover drag mx my nodes).hoveredNodeId = some nid) :
    drag.fromNodeId ≠ some nid := by
  rcases resolveHover_spec drag mx my nodes with h0 | ⟨n, _, hne, hcase⟩
  · rw [h0] at h; simp at h
  · rcases hcase with ⟨inp, _, _, heq⟩ | ⟨_, _, heq⟩ <;>
      (rw [heq] at h; simp at h; rw [← h]; exact hne)

/-- Claim C9: if a pointer-move resolution records a hovered input id, then
the create-new-port flag is off and the graph used for resolution contains a
matching node whose matching input has its connected flag false. -/
theorem c9_hover_targets_free_port (drag : DragState) (mx my : ℚ) (nodes : List NodeData)
    (pid : String) (h : (resolveHover drag mx my nodes).hoveredInputId = some pid) :
    (resolveHover drag mx my nodes).canCreateNewInput = false ∧
    ∃ n ∈ nodes, (resolveHover drag mx my nodes).hoveredNodeId = some n.id ∧
      ∃ inp ∈ n.inputs, inp.id = pid ∧ inp.connected = false := by
  rcases resolveHover_spec drag mx my nodes with h0 | ⟨n, hn, _, hcase⟩
  · rw [h0] at h; simp at h
  · rcases hcase with ⟨inp, hmem, hconn, heq⟩ | ⟨_, _, heq⟩
    · rw [heq] at h ⊢
      simp at h
      exact ⟨rfl, n, hn, rfl, inp, hmem, h, hconn⟩
    · rw [heq] at h
      simp at h

/-- Witness for C8: dragging from node 1 with the pointer over node 3's
first input resolves node 3, which differs from the origin. -/
theorem c8_no_self_connection_witness :
    (⟨true, some "1", 0, 0, none, none, false, false, none, false⟩ : DragState).fromNodeId ≠
      some "3" :=
  c8_no_self_connection ⟨true, some "1", 0, 0, none, none, false, false, none, false⟩
    700 214 initNodes "3"
    (by norm_num [resolveHover, findFreeInputAux, isPointInInputZone, isPointInNodeTapZone,
      getInputPosition, getNodeHeight, calculateNodeHeight, initNodes,
      show ("1" : String) ≠ "3" by decide])

/-- Witness for C9: the same concrete resolution lands on a free input of
node 3, so the create-new-port flag is off and the port is unconnected. -/
theorem c9_hover_targets_free_port_witness :
    (resolveHover ⟨true, some "1", 0, 0, none, none, false, false, none, false⟩
        700 214 initNodes).canCreateNewInput = false ∧
    ∃ n ∈ initNodes,
      (resolveHover ⟨true, some "1", 0, 0, none, none, false, false, none, false⟩
          700 214 initNodes).hoveredNodeId = some n.id ∧
      ∃ inp ∈ n.inputs, inp.id = "input-1" ∧ inp.connected = false :=
  c9_hover_targets_free_port ⟨true, some "1", 0, 0, none, none, false, false, none, false⟩
    700 214 initNodes "input-1"
    (by norm_num [resolveHover, findFreeInputAux, isPointInInputZone, isPointInNodeTapZone,
      getInputPosition, getNodeHeight, calculateNodeHeight, initNodes,
      show ("1" : String) ≠ "3" by decide])

/-- Counterexample to claim C2 as stated: at pointer (0, 50), node B's free
input b1 has the pointer in its tap zone (B is not the origin), and the
pointer simultaneously lies in saturated node A's broad capture zone; A
precedes B in the node list, so resolution returns the create-new-port
match on A instead of the existing-port match on B. -/
theorem c2_priority_counterexample :
    cexNodeB ∈ cexNodesC2 ∧
    cexDragC2.fromNodeId ≠ some cexNodeB.id ∧
    (∃ inp ∈ cexNodeB.inputs, inp.connected = false) ∧
    isPointInInputZone cexDragC2 0 50 cexNodeB 0 = true ∧
    isPointInNodeTapZone cexDragC2 0 50 cexNodeA = true ∧
    (resolveHover cexDragC2 0 50 cexNodesC2).canCreateNewInput = true ∧
    (resolveHover cexDragC2 0 50 cexNodesC2).hoveredInputId = none := by
  refine ⟨by decide, by decide, ⟨⟨"b1", false⟩, by decide, rfl⟩, ?_, ?_, ?_, ?_⟩
  · norm_num [isPointInInputZone, getInputPosition, getNodeHeight, calculateNodeHeight,
      cexNodeB, cexDragC2]
  · norm_num [isPointInNodeTapZone, getNodeHeight, calculateNodeHeight, cexNodeA, cexDragC2]
  · norm_num [resolveHover, findFreeInputAux, isPointInInputZone, isPointInNodeTapZone,
      getInputPosition, getNodeHeight, calculateNodeHeight, cexNodeA, cexNodeB, cexNodesC2,
      cexDragC2, show ("9" : String) ≠ "A" by decide, show ("9" : String) ≠ "B" by decide]
  · norm_num [resolveHover, findFreeInputAux, isPointInInputZone, isPointInNodeTapZone,
      getInputPosition, getNodeHeight, calculateNodeHeight, cexNodeA, cexNodeB, cexNodesC2,
      cexDragC2, show ("9" : String) ≠ "A" by decide, show ("9" : String) ≠ "B" by decide]

/-- Claim C2 amended: the priority of existing ports over create-new-port
holds only node-locally and vacuously — a create-new-port match is resolved
only on a non-origin node all of whose own inputs are connected (so that
node offers no free port) and whose capture zone contains the pointer, with
no hovered input id recorded.  Across distinct nodes the loop is
first-match-wins in list order, so a capture match on an earlier node can
preempt a free-port match on a later node (see the counterexample). -/
theorem c2_priority_amended (drag : DragState) (mx my : ℚ) (nodes : List NodeData)
    (h : (resolveHover drag mx my nodes).canCreateNewInput = true) :
    ∃ n ∈ nodes, (resolveHover drag mx my nodes).hoveredNodeId = some n.id ∧
      drag.fromNodeId ≠ some n.id ∧
      n.inputs.all (·.connected) = true ∧
      isPointInNodeTapZone drag mx my n = true ∧
      (resolveHover drag mx my nodes).hoveredInputId = none := by
  rcases resolveHover_spec drag mx my nodes with h0 | ⟨n, hn, hne, hcase⟩
  · rw [h0] at h; simp at h
  · rcases hcase with ⟨inp, _, _, heq⟩ | ⟨hall, hzone, heq⟩
    · rw [heq] at h; simp at h
    · rw [heq] at h ⊢
      exact ⟨n, hn, rfl, hne, hall, hzone, rfl⟩

/-- Witness for the amended C2 at the concrete counterexample inputs. -/
theorem c2_priority_amended_witness :
    ∃ n ∈ cexNodesC2, (resolveHover cexDragC2 0 50 cexNodesC2).hoveredNodeId = some n.id ∧
      cexDragC2.fromNodeId ≠ some n.id ∧
      n.inputs.all (·.connected) = true ∧
      isPointInNodeTapZone cexDragC2 0 50 n = true ∧
      (resolveHover cexDragC2 0 50 cexNodesC2).hoveredInputId = none :=
  c2_priority_amended cexDragC2 0 50 cexNodesC2
    (by norm_num [resolveHover, findFreeInputAux, isPointInInputZone, isPointInNodeTapZone,
      getInputPosition, getNodeHeight, calculateNodeHeight, cexNodeA, cexNodeB, cexNodesC2,
      cexDragC2, show ("9" : String) ≠ "A" by decide, show ("9" : String) ≠ "B" by decide])

/-- Helper: mapping a function that fixes every element of a list is the
identity on that list. -/
theorem map_fixes_self {α : Type} (l : List α) (f : α → α) (h : ∀ x ∈ l, f x = x) :
    l.map f = l := by
  induction l with
  | nil => rfl
  | cons a rest ih =>
    simp only [List.map_cons, h a (List.mem_cons_self a rest)]
    rw [ih fun x hx => h x (List.mem_cons_of_mem a hx)]

/-- Claim C10: starting a disconnection at a (node id, input id) pair that
no connection targets leaves the whole state — nodes, connections, and drag
session — untouched; no drag is started. -/
theorem c10_detach_free_port_noop (nid pid : String) (mx my : ℚ) (s : State)
    (h : s.connections.find? (isTarget nid pid) = none) :
    handleStartDisconnection nid pid mx my s = s := by
  simp [handleStartDisconnection, h]

/-- Witness for C10: detaching at node 1's unconnected input in the initial
state is a no-op. -/
theorem c10_detach_free_port_noop_witness :
    handleStartDisconnection "1" "input-1" 0 0 initState = initState :=
  c10_detach_free_port_noop "1" "input-1" 0 0 initState (by decide)

/-- Claim C4: when a connection `c` targets the grabbed input, starting a
disconnection removes exactly `c` (all other connections survive), clears
the input's connected flag, enters the dragging state with the removed
connection's source node as origin, and a release of that drag (which has
no hover target) leaves the connection list as it is after removal — the
removed connection is not restored. -/
theorem c4_detach_destructive (nid pid : String) (mx my : ℚ) (t : Nat) (s : State)
    (c : ConnectionData)
    (h1 : s.connections.find? (isTarget nid pid) = some c)
    (h2 : (s.connections.map (·.id)).Nodup) :
    c ∉ (handleStartDisconnection nid pid mx my s).connections ∧
    (∀ d ∈ s.connections, d ≠ c → d ∈ (handleStartDisconnection nid pid mx my s).connections) ∧
    (∀ n ∈ (handleStartDisconnection nid pid mx my s).nodes, n.id = nid →
      ∀ p ∈ n.inputs, p.id = pid → p.connected = false) ∧
    (handleStartDisconnection nid pid mx my s).drag.isDragging = true ∧
    (handleStartDisconnection nid pid mx my s).drag.fromNodeId = some c.fromNodeId ∧
    (handleEndConnection t (handleStartDisconnection nid pid mx my s)).connections =
      (handleStartDisconnection nid pid mx my s).connections := by
  have hc : c ∈ s.connections := List.mem_of_find?_eq_some h1
  refine ⟨?_, ?_, ?_, ?_, ?_, ?_⟩
  · simp [handleStartDisconnection, h1, List.mem_filter]
  · intro d hd hne
    have hid : d.id ≠ c.id := fun hcontra =>
      hne (List.inj_on_of_nodup_map h2 hd hc hcontra)
    simp [handleStartDisconnection, h1, List.mem_filter, hd, hid]
  · intro n hn hnid p hp hpid
    simp only [handleStartDisconnection, h1] at hn
    obtain ⟨n0, _, hmap⟩ := List.mem_map.mp hn
    by_cases h0 : n0.id = nid
    · rw [if_pos h0] at hmap
      rw [← hmap] at hp
      simp only at hp
      obtain ⟨p0, _, hpm⟩ := List.mem_map.mp hp
      by_cases hq : p0.id = pid
      · rw [if_pos hq] at hpm
        rw [← hpm]
      · rw [if_neg hq] at hpm
        rw [← hpm] at hpid
        exact absurd hpid hq
    · rw [if_neg h0] at hmap
      rw [← hmap] at hnid
      exact absurd hnid h0
  · simp [handleStartDisconnection, h1]
  · simp [handleStartDisconnection, h1]
  · simp only [handleStartDisconnection, h1, handleEndConnection]

/-- Witness for C4: detaching node 2's connected input in the initial state
removes conn1, clears the flag, and a subsequent bare release keeps it gone. -/
theorem c4_detach_destructive_witness :
    (⟨"conn1", "1", "2", "input-1"⟩ : ConnectionData) ∉
      (handleStartDisconnection "2" "input-1" 0 0 initState).connections ∧
    (∀ d ∈ initState.connections, d ≠ ⟨"conn1", "1", "2", "input-1"⟩ →
      d ∈ (handleStartDisconnection "2" "input-1" 0 0 initState).connections) ∧
    (∀ n ∈ (handleStartDisconnection "2" "input-1" 0 0 initState).nodes, n.id = "2" →
      ∀ p ∈ n.inputs, p.id = "input-1" → p.connected = false) ∧
    (handleStartDisconnection "2" "input-1" 0 0 initState).drag.isDragging = true ∧
    (handleStartDisconnection "2" "input-1" 0 0 initState).drag.fromNodeId = some "1" ∧
    (handleEndConnection 10 (handleStartDisconnection "2" "input-1" 0 0 initState)).connections =
      (handleStartDisconnection "2" "input-1" 0 0 initState).connections :=
  c4_detach_destructive "2" "input-1" 0 0 10 initState ⟨"conn1", "1", "2", "input-1"⟩
    (by decide) (by decide)

/-- Counterexample to claim C3 as stated: in `cexStateC3` the hovered port
(node 2, input-1) already has its connected flag true, yet the release at
time 10 is not rejected — it appends another connection targeting the same
pair, changing the connection list. -/
theorem c3_safety_net_counterexample :
    (∃ n ∈ cexStateC3.nodes, n.id = "2" ∧
      ∃ p ∈ n.inputs, p.id = "input-1" ∧ p.connected = true) ∧
    cexStateC3.drag.hoveredNodeId = some "2" ∧
    cexStateC3.drag.hoveredInputId = some "input-1" ∧
    cexStateC3.drag.isInTapZone = true ∧
    (handleEndConnection 10 cexStateC3).connections ≠ cexStateC3.connections := by
  refine ⟨⟨⟨"2", 400, 300, "Code", "LTC", [⟨"input-1", true⟩]⟩, by decide, rfl,
    ⟨"input-1", true⟩, by decide, rfl, rfl⟩, rfl, rfl, rfl, ?_⟩
  intro heq
  have hl := congrArg List.length heq
  simp [handleEndConnection, cexStateC3,
    show ("1" : String) ≠ "" by decide, show ("2" : String) ≠ "" by decide,
    show ("input-1" : String) ≠ "" by decide] at hl

/-- Claim C3 amended: the release commit into an existing hovered port does
not re-validate the port's connected flag.  Whenever the session passes the
release guard with a hovered input id — even one whose port is already
connected — the edge is appended anyway; the node list is unchanged only
because setting the flag true is idempotent.  Consistency relies solely on
the hit-test engine never hovering a connected port, not on a model-level
safety net. -/
theorem c3_no_revalidation (t : Nat) (s : State) (f nid pid : String)
    (hdrag : s.drag.isDragging = true) (hf : s.drag.fromNodeId = some f) (hf0 : f ≠ "")
    (hn : s.drag.hoveredNodeId = some nid) (hn0 : nid ≠ "")
    (htz : s.drag.isInTapZone = true) (hcc : s.drag.canCreateNewInput = false)
    (hp : s.drag.hoveredInputId = some pid) (hp0 : pid ≠ "")
    (hconn : ∀ n ∈ s.nodes, n.id = nid → ∀ p ∈ n.inputs, p.id = pid → p.connected = true) :
    (handleEndConnection t s).connections = s.connections ++ [⟨connStamp t, f, nid, pid⟩] ∧
    (handleEndConnection t s).nodes = s.nodes := by
  unfold handleEndConnection
  rw [hf, hn, hp]
  dsimp only
  rw [if_pos ⟨hdrag, hf0, hn0, htz⟩, if_neg (by rw [hcc]; simp), if_pos hp0]
  refine ⟨rfl, ?_⟩
  simp only
  apply map_fixes_self
  intro node hnode
  by_cases h0 : node.id = nid
  · rw [if_pos h0]
    have hinputs : (node.inputs.map fun inp =>
        if inp.id = pid then { inp with connected := true } else inp) = node.inputs := by
      apply map_fixes_self
      intro inp hinp
      by_cases hq : inp.id = pid
      · rw [if_pos hq]
        have := hconn node hnode h0 inp hinp hq
        cases inp
        simp only at this
        rw [this]
      · rw [if_neg hq]
    rw [hinputs]
  · rw [if_neg h0]

/-- Witness for the amended C3 at the concrete already-connected port. -/
theorem c3_no_revalidation_witness :
    (handleEndConnection 10 cexStateC3).connections =
      cexStateC3.connections ++ [⟨connStamp 10, "1", "2", "input-1"⟩] ∧
    (handleEndConnection 10 cexStateC3).nodes = cexStateC3.nodes :=
  c3_no_revalidation 10 cexStateC3 "1" "2" "input-1" rfl rfl (by decide) rfl (by decide)
    rfl rfl rfl (by decide) (by decide)

/-- Counterexample to claim C5 as stated: in `cexStateC5` the session's
origin id "ghost" names no node, yet the release at time 10 is not treated
as a cancel — it mutates the connection list (appending an edge whose
source is the dangling id). -/
theorem c5_malformed_session_counterexample :
    cexStateC5.drag.fromNodeId = some "ghost" ∧
    "ghost" ∉ cexStateC5.nodes.map (·.id) ∧
    cexStateC5.drag.hoveredNodeId = some "3" ∧
    cexStateC5.drag.hoveredInputId = some "input-1" ∧
    cexStateC5.drag.isInTapZone = true ∧
    (handleEndConnection 10 cexStateC5).connections ≠ cexStateC5.connections := by
  refine ⟨rfl, by decide, rfl, rfl, rfl, ?_⟩
  intro heq
  have hl := congrArg List.length heq
  simp [handleEndConnection, cexStateC5,
    show ("ghost" : String) ≠ "" by decide, show ("3" : String) ≠ "" by decide,
    show ("input-1" : String) ≠ "" by decide] at hl

/-- Claim C5 amended: the release commit never validates that the session's
origin id names an existing node.  Whenever the session passes the release
guard with a hovered input id, the commit proceeds identically whether or
not the origin exists: the connection — whose source may be a dangling id —
is appended and the session is discarded.  Only a session with no resolved
hover target leaves the lists unchanged. -/
theorem c5_commit_ignores_origin (t : Nat) (s : State) (f nid pid : String)
    (hdrag : s.drag.isDragging = true) (hf : s.drag.fromNodeId = some f) (hf0 : f ≠ "")
    (hghost : f ∉ s.nodes.map (·.id))
    (hn : s.drag.hoveredNodeId = some nid) (hn0 : nid ≠ "")
    (htz : s.drag.isInTapZone = true) (hcc : s.drag.canCreateNewInput = false)
    (hp : s.drag.hoveredInputId = some pid) (hp0 : pid ≠ "") :
    (handleEndConnection t s).connections = s.connections ++ [⟨connStamp t, f, nid, pid⟩] ∧
    (handleEndConnection t s).drag = idleDrag := by
  unfold handleEndConnection
  rw [hf, hn, hp]
  dsimp only
  rw [if_pos ⟨hdrag, hf0, hn0, htz⟩, if_neg (by rw [hcc]; simp), if_pos hp0]
  exact ⟨rfl, rfl⟩

/-- Witness for the amended C5 at the concrete dangling-origin session. -/
theorem c5_commit_ignores_origin_witness :
    (handleEndConnection 10 cexStateC5).connections =
      cexStateC5.connections ++ [⟨connStamp 10, "ghost", "3", "input-1"⟩] ∧
    (handleEndConnection 10 cexStateC5).drag = idleDrag :=
  c5_commit_ignores_origin 10 cexStateC5 "ghost" "3" "input-1" rfl rfl (by decide)
    (by decide) rfl (by decide) rfl rfl rfl (by decide)

theorem isTarget_iff (nid pid : String) (c : ConnectionData) :
    isTarget nid pid c = true ↔ c.toNodeId = nid ∧ c.toInputId = pid := by
  simp [isTarget]

theorem inputStamp_ne_of_lt {k t : Nat} (h : k < t) : inputStamp k ≠ inputStamp t :=
  fun heq => absurd (inputStamp_inj heq) (by omega)

theorem connStamp_ne_of_lt {k t : Nat} (h : k < t) : connStamp k ≠ connStamp t :=
  fun heq => absurd (connStamp_inj heq) (by omega)

theorem countP_filter_ne_of_not_target (l : List ConnectionData) (c : ConnectionData)
    (hnodup : (l.map (·.id)).Nodup) (hc : c ∈ l) (a b : String)
    (hne : isTarget a b c = false) :
    (l.filter fun x => x.id ≠ c.id).countP (isTarget a b) = l.countP (isTarget a b) := by
  rw [List.countP_filter]
  apply List.countP_congr
  intro x hx
  constructor
  · intro hand
    exact ((Bool.and_eq_true _ _).mp hand).1
  · intro ht
    refine (Bool.and_eq_true _ _).mpr ⟨ht, ?_⟩
    have hxc : x ≠ c := fun hxeq => by rw [hxeq] at ht; rw [ht] at hne; cases hne
    have : x.id ≠ c.id := fun hid => hxc (List.inj_on_of_nodup_map hnodup hx hc hid)
    simpa using this

theorem countP_filter_ne_of_target_one (l : List ConnectionData) (c : ConnectionData)
    (hc : c ∈ l) (a b : String)
    (htarget : isTarget a b c = true) (hone : l.countP (isTarget a b) = 1) :
    (l.filter fun x => x.id ≠ c.id).countP (isTarget a b) = 0 := by
  have hfl : (l.filter (isTarget a b)).length = 1 := by
    rw [← List.countP_eq_length_filter]
    exact hone
  obtain ⟨d, hd⟩ := List.length_eq_one.mp hfl
  have hcd : c = d := by
    have : c ∈ l.filter (isTarget a b) := List.mem_filter.mpr ⟨hc, htarget⟩
    rw [hd] at this
    simpa using this
  rw [List.countP_filter]
  apply List.countP_eq_zero.mpr
  intro x hx
  intro hand
  obtain ⟨hxt, hxid⟩ := (Bool.and_eq_true _ _).mp hand
  have : x ∈ l.filter (isTarget a b) := List.mem_filter.mpr ⟨hx, hxt⟩
  rw [hd] at this
  have hxd : x = d := by simpa using this
  rw [hxd, ← hcd] at hxid
  simp at hxid

theorem map_id_eq (g : NodeData → NodeData) (hg : ∀ n, (g n).id = n.id) (l : List NodeData) :
    (l.map g).map (·.id) = l.map (·.id) := by
  induction l with
  | nil => rfl
  | cons a rest ih => simp [hg a, ih]

theorem graphInv_startConnection (nid : String) (mx my : ℚ) (s : State) (h : GraphInv s) :
    GraphInv (handleStartConnection nid mx my s) := by
  obtain ⟨h1, h2, h3, h4, h5, h6, h7, h8⟩ := h
  exact ⟨h1, h2, h3, h4, h5, h6, h7, by intro a b ha hb; simp [handleStartConnection] at ha⟩

theorem graphInv_moveNode (nid : String) (px py : ℚ) (s : State) (h : GraphInv s) :
    GraphInv (updateNodePosition nid px py s) := by
  obtain ⟨h1, h2, h3, h4, h5, h6, h7, h8⟩ := h
  have hg : ∀ n : NodeData,
      ((if n.id = nid then { n with x := px, y := py } else n) : NodeData).id = n.id := by
    intro n; split <;> rfl
  have hgi : ∀ n : NodeData,
      ((if n.id = nid then { n with x := px, y := py } else n) : NodeData).inputs = n.inputs := by
    intro n; split <;> rfl
  refine ⟨?_, ?_, h3, ?_, ?_, h6, h7, ?_⟩
  · simp only [updateNodePosition]
    rw [map_id_eq _ hg]
    exact h1
  · intro n hn
    obtain ⟨n0, hn0, heq⟩ := List.mem_map.mp hn
    have hinp : n.inputs = n0.inputs := by rw [← heq]; exact hgi n0
    rw [hinp]
    exact h2 n0 hn0
  · intro n hn p hp
    obtain ⟨n0, hn0, heq⟩ := List.mem_map.mp hn
    have hid : n.id = n0.id := by rw [← heq]; exact hg n0
    have hinp : n.inputs = n0.inputs := by rw [← heq]; exact hgi n0
    rw [hinp] at hp
    rw [hid]
    exact h4 n0 hn0 p hp
  · intro n hn p hp
    obtain ⟨n0, hn0, heq⟩ := List.mem_map.mp hn
    have hinp : n.inputs = n0.inputs := by rw [← heq]; exact hgi n0
    rw [hinp] at hp
    exact h5 n0 hn0 p hp
  · intro a b ha hb
    obtain ⟨hbound, hflag⟩ := h8 a b ha hb
    refine ⟨hbound, ?_⟩
    intro n hn hnid p hp hpid
    obtain ⟨n0, hn0, heq⟩ := List.mem_map.mp hn
    have hid : n.id = n0.id := by rw [← heq]; exact hg n0
    have hinp : n.inputs = n0.inputs := by rw [← heq]; exact hgi n0
    rw [hinp] at hp
    rw [hid] at hnid
    exact hflag n0 hn0 hnid p hp hpid

theorem countP_filter_not_target (l : List ConnectionData) (a b nid pid : String)
    (hne : a ≠ nid ∨ b ≠ pid) :
    (l.filter fun x => !isTarget nid pid x).countP (isTarget a b) =
      l.countP (isTarget a b) := by
  rw [List.countP_filter]
  apply List.countP_congr
  intro x hx
  constructor
  · intro hand
    exact ((Bool.and_eq_true _ _).mp hand).1
  · intro ht
    refine (Bool.and_eq_true _ _).mpr ⟨ht, ?_⟩
    obtain ⟨hta, htb⟩ := (isTarget_iff a b x).mp ht
    have : isTarget nid pid x = false := by
      cases hx2 : isTarget nid pid x with
      | false => rfl
      | true =>
        obtain ⟨hna, hnb⟩ := (isTarget_iff nid pid x).mp hx2
        rcases hne with hne | hne
        · exact absurd (hta ▸ hna) hne
        · exact absurd (htb ▸ hnb) hne
    rw [this]
    rfl

theorem graphInv_removeInput (nid pid : String) (s : State) (h : GraphInv s) :
    GraphInv (handleRemoveInput nid pid s) := by
  obtain ⟨h1, h2, h3, h4, h5, h6, h7, h8⟩ := h
  have hg : ∀ n : NodeData,
      ((if n.id = nid then { n with inputs := n.inputs.filter fun inp => inp.id ≠ pid }
        else n) : NodeData).id = n.id := by
    intro n; split <;> rfl
  have hsub : ∀ n : NodeData, ∀ p : NodeInput,
      p ∈ ((if n.id = nid then { n with inputs := n.inputs.filter fun inp => inp.id ≠ pid }
        else n) : NodeData).inputs → p ∈ n.inputs := by
    intro n p hp
    split at hp
    · exact List.mem_of_mem_filter hp
    · exact hp
  have hconnsub : ∀ c : ConnectionData,
      c ∈ (handleRemoveInput nid pid s).connections → c ∈ s.connections := by
    intro c hc
    exact List.mem_of_mem_filter hc
  refine ⟨?_, ?_, ?_, ?_, ?_, ?_, ?_, ?_⟩
  · simp only [handleRemoveInput]
    rw [map_id_eq _ hg]
    exact h1
  · intro n hn
    obtain ⟨n0, hn0, heq⟩ := List.mem_map.mp hn
    rw [← heq]
    split
    · exact (h2 n0 hn0).sublist ((List.filter_sublist _).map _)
    · exact h2 n0 hn0
  · exact h3.sublist ((List.filter_sublist _).map _)
  · intro n hn p hp
    obtain ⟨n0, hn0, heq⟩ := List.mem_map.mp hn
    have hid : n.id = n0.id := by rw [← heq]; exact hg n0
    have hp0 : p ∈ n0.inputs := hsub n0 p (heq ▸ hp)
    by_cases h0 : n0.id = nid
    · rw [← heq, if_pos h0] at hp
      simp only [List.mem_filter, decide_eq_true_eq] at hp
      have hpp : p.id ≠ pid := hp.2
      show ((s.connections.filter fun x => !isTarget nid pid x).countP
        (isTarget n.id p.id)) = _
      rw [hid, countP_filter_not_target s.connections n0.id p.id nid pid (Or.inr hpp)]
      exact h4 n0 hn0 p hp0
    · have hnn : n.id ≠ nid := by rw [hid]; exact h0
      show ((s.connections.filter fun x => !isTarget nid pid x).countP
        (isTarget n.id p.id)) = _
      rw [countP_filter_not_target s.connections n.id p.id nid pid (Or.inl hnn)]
      rw [hid]
      exact h4 n0 hn0 p hp0
  · intro n hn p hp
    obtain ⟨n0, hn0, heq⟩ := List.mem_map.mp hn
    exact h5 n0 hn0 p (hsub n0 p (heq ▸ hp))
  · intro c hc
    exact h6 c (hconnsub c hc)
  · intro c hc
    exact h7 c (hconnsub c hc)
  · intro a b ha hb
    obtain ⟨hbound, hflag⟩ := h8 a b ha hb
    refine ⟨hbound, ?_⟩
    intro n hn hnid p hp hpid
    obtain ⟨n0, hn0, heq⟩ := List.mem_map.mp hn
    have hid : n.id = n0.id := by rw [← heq]; exact hg n0
    exact hflag n0 hn0 (hid ▸ hnid) p (hsub n0 p (heq ▸ hp)) hpid

theorem graphInv_mouseMove (mx my : ℚ) (s : State) (h : GraphInv s) :
    GraphInv (handleMouseMove mx my s) := by
  obtain ⟨h1, h2, h3, h4, h5, h6, h7, h8⟩ := h
  by_cases hd : s.drag.isDragging = true
  · simp only [handleMouseMove, hd, if_pos]
    refine ⟨h1, h2, h3, h4, h5, h6, h7, ?_⟩
    intro a b ha hb
    simp only at ha hb
    rcases resolveHover_spec s.drag mx my s.nodes with h0 | ⟨n, hn, _, hcase⟩
    · rw [h0] at hb
      simp at hb
    · rcases hcase with ⟨inp, hmem, hconn, heq⟩ | ⟨_, _, heq⟩
      · rw [heq] at ha hb
        simp only at ha hb
        have hb2 : inp.id = b := by injection hb
        have ha2 : n.id = a := by injection ha
        constructor
        · obtain ⟨k, hk, hkid⟩ := h5 n hn inp hmem
          exact ⟨k, hk, hb2 ▸ hkid⟩
        · intro n' hn' hnid p hp hpid
          have hnn : n' = n := List.inj_on_of_nodup_map h1 hn' hn (by rw [hnid, ← ha2])
          rw [hnn] at hp
          have hpp : p = inp := List.inj_on_of_nodup_map (h2 n hn) hp hmem
            (by rw [hpid, ← hb2])
          rw [hpp]
          exact hconn
      · rw [heq] at hb
        simp at hb
  · simp only [handleMouseMove, hd, if_neg]
    exact ⟨h1, h2, h3, h4, h5, h6, h7, h8⟩

theorem map_map_congr {α β : Type} (f : α → β) (g : α → α) (hfg : ∀ a, f (g a) = f a)
    (l : List α) : (l.map g).map f = l.map f := by
  induction l with
  | nil => rfl
  | cons a rest ih => simp only [List.map_cons, hfg a, ih]

theorem graphInv_startDisconnection (nid pid : String) (mx my : ℚ) (s : State)
    (h : GraphInv s) : GraphInv (handleStartDisconnection nid pid mx my s) := by
  obtain ⟨h1, h2, h3, h4, h5, h6, h7, h8⟩ := h
  cases hfind : s.connections.find? (isTarget nid pid) with
  | none =>
    simp only [handleStartDisconnection, hfind]
    exact ⟨h1, h2, h3, h4, h5, h6, h7, h8⟩
  | some c =>
    have hc : c ∈ s.connections := List.mem_of_find?_eq_some hfind
    have htc : isTarget nid pid c = true := List.find?_some hfind
    obtain ⟨hcn, hcp⟩ := (isTarget_iff nid pid c).mp htc
    have hgid : ∀ n : NodeData,
        ((if n.id = nid then
          { n with inputs := n.inputs.map fun inp =>
              if inp.id = pid then { inp with connected := false } else inp }
          else n) : NodeData).id = n.id := by
      intro n; split <;> rfl
    have hgiid : ∀ p : NodeInput,
        ((if p.id = pid then { p with connected := false } else p) : NodeInput).id = p.id := by
      intro p; split <;> rfl
    simp only [handleStartDisconnection, hfind]
    refine ⟨?_, ?_, ?_, ?_, ?_, ?_, ?_, ?_⟩
    · rw [map_id_eq _ hgid]
      exact h1
    · intro n hn
      obtain ⟨n0, hn0, heq⟩ := List.mem_map.mp hn
      rw [← heq]
      split
      · simp only
        rw [map_map_congr _ _ hgiid]
        exact h2 n0 hn0
      · exact h2 n0 hn0
    · exact h3.sublist ((List.filter_sublist _).map _)
    · intro n hn p hp
      obtain ⟨n0, hn0, heq⟩ := List.mem_map.mp hn
      have hid : n.id = n0.id := by rw [← heq]; exact hgid n0
      by_cases h0 : n0.id = nid
      · rw [← heq, if_pos h0] at hp
        simp only at hp
        obtain ⟨p0, hp0, hpeq⟩ := List.mem_map.mp hp
        by_cases hq : p0.id = pid
        · rw [if_pos hq] at hpeq
          rw [← hpeq]
          simp only
          have hcount : s.connections.countP (isTarget n0.id p0.id) = 1 := by
            have hpos : 0 < s.connections.countP (isTarget n0.id p0.id) := by
              apply List.countP_pos_iff.mpr
              exact ⟨c, hc, by rw [h0, hq]; exact htc⟩
            have := h4 n0 hn0 p0 hp0
            rcases hb : p0.connected with _ | _
            · rw [hb, if_neg (by decide)] at this
              omega
            · rw [hb, if_pos rfl] at this
              exact this
          rw [hid]
          have : (s.connections.filter fun x => x.id ≠ c.id).countP
              (isTarget n0.id p0.id) = 0 := by
            apply countP_filter_ne_of_target_one s.connections c hc
            · rw [h0, hq]; exact htc
            · exact hcount
          rw [this]
          simp
        · rw [if_neg hq] at hpeq
          rw [← hpeq]
          rw [hid]
          have hnt : isTarget n0.id p0.id c = false := by
            cases hx : isTarget n0.id p0.id c with
            | false => rfl
            | true =>
              obtain ⟨_, hb⟩ := (isTarget_iff _ _ _).mp hx
              exact absurd (by rw [← hb, hcp]) hq
          rw [countP_filter_ne_of_not_target s.connections c h3 hc _ _ hnt]
          exact h4 n0 hn0 p0 hp0
      · rw [← heq, if_neg h0] at hp
        have hnt : isTarget n.id p.id c = false := by
          cases hx : isTarget n.id p.id c with
          | false => rfl
          | true =>
            obtain ⟨ha, _⟩ := (isTarget_iff _ _ _).mp hx
            rw [hid] at ha
            exact absurd (by rw [← ha, hcn]) h0
        rw [countP_filter_ne_of_not_target s.connections c h3 hc _ _ hnt]
        rw [hid]
        exact h4 n0 hn0 p hp
    · intro n hn p hp
      obtain ⟨n0, hn0, heq⟩ := List.mem_map.mp hn
      by_cases h0 : n0.id = nid
      · rw [← heq, if_pos h0] at hp
        simp only at hp
        obtain ⟨p0, hp0, hpeq⟩ := List.mem_map.mp hp
        have hpid : p.id = p0.id := by rw [← hpeq]; exact hgiid p0
        rw [hpid]
        exact h5 n0 hn0 p0 hp0
      · rw [← heq, if_neg h0] at hp
        exact h5 n0 hn0 p hp
    · intro d hd
      exact h6 d (List.mem_of_mem_filter hd)
    · intro d hd
      exact h7 d (List.mem_of_mem_filter hd)
    · intro a b ha hb
      simp only at ha
      cases ha

theorem countP_append_singleton (l : List ConnectionData) (c : ConnectionData) (a b : String) :
    (l ++ [c]).countP (isTarget a b) =
      l.countP (isTarget a b) + if isTarget a b c then 1 else 0 := by
  rw [List.countP_append]
  congr 1
  simp [List.countP_cons]

theorem nodup_append_singleton {α : Type} (l : List α) (a : α) (h : l.Nodup) (ha : a ∉ l) :
    (l ++ [a]).Nodup := by
  rw [List.nodup_append]
  refine ⟨h, List.nodup_singleton a, ?_⟩
  intro x hx hxa
  rw [List.mem_singleton] at hxa
  exact absurd (hxa ▸ hx) ha

theorem graphInv_reset (s : State) (t : Nat) (ht : s.clock ≤ t) (h : GraphInv s) :
    GraphInv ⟨s.nodes, s.connections, idleDrag, t⟩ := by
  obtain ⟨h1, h2, h3, h4, h5, h6, h7, _⟩ := h
  refine ⟨h1, h2, h3, h4, ?_, ?_, ?_, ?_⟩
  · intro n hn p hp
    obtain ⟨k, hk, hkid⟩ := h5 n hn p hp
    exact ⟨k, le_trans hk ht, hkid⟩
  · intro c hc
    rcases h6 c hc with hc1 | ⟨k, hk, hkid⟩
    · exact Or.inl hc1
    · exact Or.inr ⟨k, le_trans hk ht, hkid⟩
  · intro c hc
    obtain ⟨k, hk, hkid⟩ := h7 c hc
    exact ⟨k, le_trans hk ht, hkid⟩
  · intro a b ha hb
    cases ha

theorem graphInv_endConnection (t : Nat) (s : State) (ht : s.clock < t) (h : GraphInv s) :
    GraphInv (handleEndConnection t s) := by
  obtain ⟨h1, h2, h3, h4, h5, h6, h7, h8⟩ := h
  have hreset : GraphInv ⟨s.nodes, s.connections, idleDrag, t⟩ :=
    graphInv_reset s t (le_of_lt ht) ⟨h1, h2, h3, h4, h5, h6, h7, h8⟩
  have hconnfresh : ∀ d ∈ s.connections, d.id ≠ connStamp t := by
    intro d hd
    rcases h6 d hd with hd1 | ⟨k, hk, hkid⟩
    · rw [hd1]; exact conn1_ne_connStamp t
    · rw [hkid]; exact connStamp_ne_of_lt (by omega)
  have hconnnodup : ∀ (cnew : ConnectionData), cnew.id = connStamp t →
      ((s.connections ++ [cnew]).map (·.id)).Nodup := by
    intro cnew hcnew
    rw [List.map_append]
    apply nodup_append_singleton _ _ h3
    intro hmem
    simp only [List.map_cons, List.map_nil, List.mem_singleton] at hmem
    obtain ⟨d, hd, hdeq⟩ := List.mem_map.mp hmem
    exact hconnfresh d hd (by rw [hdeq, hcnew])
  cases hf : s.drag.fromNodeId with
  | none =>
    unfold handleEndConnection
    rw [hf]
    exact hreset
  | some f =>
    cases hn : s.drag.hoveredNodeId with
    | none =>
      unfold handleEndConnection
      rw [hf, hn]
      exact hreset
    | some nid =>
      unfold handleEndConnection
      rw [hf, hn]
      dsimp only
      by_cases hguard : s.drag.isDragging = true ∧ f ≠ "" ∧ nid ≠ "" ∧ s.drag.isInTapZone = true
      · rw [if_pos hguard]
        by_cases hcc : s.drag.canCreateNewInput = true
        · rw [if_pos hcc]
          -- create-new-input commit
          have hgid : ∀ n : NodeData,
              ((if n.id = nid then
                { n with inputs := n.inputs ++ [⟨inputStamp t, true⟩] }
                else n) : NodeData).id = n.id := by
            intro n; split <;> rfl
          refine ⟨?_, ?_, ?_, ?_, ?_, ?_, ?_, ?_⟩
          · rw [map_id_eq _ hgid]
            exact h1
          · intro n hn' 
            obtain ⟨n0, hn0, heq⟩ := List.mem_map.mp hn'
            rw [← heq]
            split
            · simp only [List.map_append]
              apply nodup_append_singleton
              · exact h2 n0 hn0
              · intro hmem
                simp only [List.map_cons, List.map_nil, List.mem_singleton] at hmem
                obtain ⟨p, hp, hpeq⟩ := List.mem_map.mp hmem
                obtain ⟨k, hk, hkid⟩ := h5 n0 hn0 p hp
                exact inputStamp_ne_of_lt (show k < t by omega) (by rw [← hkid, hpeq])
            · exact h2 n0 hn0
          · exact hconnnodup _ rfl
          · intro n hn' p hp
            obtain ⟨n0, hn0, heq⟩ := List.mem_map.mp hn'
            have hid : n.id = n0.id := by rw [← heq]; exact hgid n0
            by_cases h0 : n0.id = nid
            · rw [← heq, if_pos h0] at hp
              simp only at hp
              rcases List.mem_append.mp hp with hp1 | hp2
              · obtain ⟨k, hk, hkid⟩ := h5 n0 hn0 p hp1
                have hne : isTarget n.id p.id ⟨connStamp t, f, nid, inputStamp t⟩ = false := by
                  cases hx : isTarget n.id p.id ⟨connStamp t, f, nid, inputStamp t⟩ with
                  | false => rfl
                  | true =>
                    obtain ⟨_, hb⟩ := (isTarget_iff _ _ _).mp hx
                    simp only at hb
                    exact absurd (by rw [← hkid]; exact hb.symm)
                      (inputStamp_ne_of_lt (lt_of_le_of_lt hk ht))
                rw [countP_append_singleton, hne, if_neg (by decide), Nat.add_zero, hid]
                exact h4 n0 hn0 p hp1
              · rw [List.mem_singleton] at hp2
                rw [hp2]
                simp only
                have hzero : s.connections.countP (isTarget n.id (inputStamp t)) = 0 := by
                  apply List.countP_eq_zero.mpr
                  intro d hd hdt
                  obtain ⟨_, hb⟩ := (isTarget_iff _ _ _).mp hdt
                  obtain ⟨k, hk, hkid⟩ := h7 d hd
                  exact inputStamp_ne_of_lt (show k < t by omega) (by rw [← hkid, hb])
                rw [countP_append_singleton, hzero]
                have hone : isTarget n.id (inputStamp t)
                    ⟨connStamp t, f, nid, inputStamp t⟩ = true := by
                  rw [isTarget_iff]
                  exact ⟨by rw [hid, h0], rfl⟩
                rw [hone]
                simp
            · rw [← heq, if_neg h0] at hp
              have hne : isTarget n.id p.id ⟨connStamp t, f, nid, inputStamp t⟩ = false := by
                cases hx : isTarget n.id p.id ⟨connStamp t, f, nid, inputStamp t⟩ with
                | false => rfl
                | true =>
                  obtain ⟨ha, _⟩ := (isTarget_iff _ _ _).mp hx
                  simp only at ha
                  rw [hid] at ha
                  exact absurd (by rw [← ha]) h0
              rw [countP_append_singleton, hne, if_neg (by decide), Nat.add_zero, hid]
              exact h4 n0 hn0 p hp
          · intro n hn' p hp
            obtain ⟨n0, hn0, heq⟩ := List.mem_map.mp hn'
            by_cases h0 : n0.id = nid
            · rw [← heq, if_pos h0] at hp
              simp only at hp
              rcases List.mem_append.mp hp with hp1 | hp2
              · obtain ⟨k, hk, hkid⟩ := h5 n0 hn0 p hp1
                exact ⟨k, le_trans hk ht.le, hkid⟩
              · rw [List.mem_singleton] at hp2
                rw [hp2]
                exact ⟨t, le_refl t, rfl⟩
            · rw [← heq, if_neg h0] at hp
              obtain ⟨k, hk, hkid⟩ := h5 n0 hn0 p hp
              exact ⟨k, le_trans hk ht.le, hkid⟩
          · intro c hc
            rcases List.mem_append.mp hc with hc1 | hc2
            · rcases h6 c hc1 with hd1 | ⟨k, hk, hkid⟩
              · exact Or.inl hd1
              · exact Or.inr ⟨k, le_trans hk ht.le, hkid⟩
            · rw [List.mem_singleton] at hc2
              rw [hc2]
              exact Or.inr ⟨t, le_refl t, rfl⟩
          · intro c hc
            rcases List.mem_append.mp hc with hc1 | hc2
            · obtain ⟨k, hk, hkid⟩ := h7 c hc1
              exact ⟨k, le_trans hk ht.le, hkid⟩
            · rw [List.mem_singleton] at hc2
              rw [hc2]
              exact ⟨t, le_refl t, rfl⟩
          · intro a b ha hb
            cases ha
        · rw [if_neg hcc]
          cases hp : s.drag.hoveredInputId with
          | none => exact hreset
          | some pid =>
            dsimp only
            by_cases hp0 : pid ≠ ""
            · rw [if_pos hp0]
              -- commit into the hovered existing input
              obtain ⟨⟨k0, hk0, hpidstamp⟩, hflag⟩ := h8 nid pid hn hp
              have hgid : ∀ n : NodeData,
                  ((if n.id = nid then
                    { n with inputs := n.inputs.map fun inp =>
                        if inp.id = pid then { inp with connected := true } else inp }
                    else n) : NodeData).id = n.id := by
                intro n; split <;> rfl
              have hgiid : ∀ p : NodeInput,
                  ((if p.id = pid then { p with connected := true } else p) : NodeInput).id
                    = p.id := by
                intro p; split <;> rfl
              refine ⟨?_, ?_, ?_, ?_, ?_, ?_, ?_, ?_⟩
              · rw [map_id_eq _ hgid]
                exact h1
              · intro n hn' 
                obtain ⟨n0, hn0, heq⟩ := List.mem_map.mp hn'
                rw [← heq]
                split
                · simp only
                  rw [map_map_congr _ _ hgiid]
                  exact h2 n0 hn0
                · exact h2 n0 hn0
              · exact hconnnodup _ rfl
              · intro n hn' p hp'
                obtain ⟨n0, hn0, heq⟩ := List.mem_map.mp hn'
                have hid : n.id = n0.id := by rw [← heq]; exact hgid n0
                by_cases h0 : n0.id = nid
                · rw [← heq, if_pos h0] at hp'
                  simp only at hp'
                  obtain ⟨p0, hp0m, hpeq⟩ := List.mem_map.mp hp'
                  by_cases hq : p0.id = pid
                  · rw [if_pos hq] at hpeq
                    rw [← hpeq]
                    simp only
                    have hflag0 : p0.connected = false := hflag n0 hn0 h0 p0 hp0m hq
                    have hzero : s.connections.countP (isTarget n.id p0.id) = 0 := by
                      have := h4 n0 hn0 p0 hp0m
                      rw [hflag0, if_neg (by decide)] at this
                      rw [hid]
                      exact this
                    rw [countP_append_singleton, hzero]
                    have hone : isTarget n.id p0.id ⟨connStamp t, f, nid, pid⟩ = true := by
                      rw [isTarget_iff]
                      exact ⟨by rw [hid, h0], by rw [hq]⟩
                    rw [hone]
                    simp
                  · rw [if_neg hq] at hpeq
                    rw [← hpeq]
                    have hne : isTarget n.id p0.id ⟨connStamp t, f, nid, pid⟩ = false := by
                      cases hx : isTarget n.id p0.id ⟨connStamp t, f, nid, pid⟩ with
                      | false => rfl
                      | true =>
                        obtain ⟨_, hb⟩ := (isTarget_iff _ _ _).mp hx
                        simp only at hb
                        exact absurd (by rw [← hb]) hq
                    rw [countP_append_singleton, hne, if_neg (by decide), Nat.add_zero, hid]
                    exact h4 n0 hn0 p0 hp0m
                · rw [← heq, if_neg h0] at hp'
                  have hne : isTarget n.id p.id ⟨connStamp t, f, nid, pid⟩ = false := by
                    cases hx : isTarget n.id p.id ⟨connStamp t, f, nid, pid⟩ with
                    | false => rfl
                    | true =>
                      obtain ⟨ha, _⟩ := (isTarget_iff _ _ _).mp hx
                      simp only at ha
                      rw [hid] at ha
                      exact absurd (by rw [← ha]) h0
                  rw [countP_append_singleton, hne, if_neg (by decide), Nat.add_zero, hid]
                  exact h4 n0 hn0 p hp'
              · intro n hn' p hp'
                obtain ⟨n0, hn0, heq⟩ := List.mem_map.mp hn'
                by_cases h0 : n0.id = nid
                · rw [← heq, if_pos h0] at hp'
                  simp only at hp'
                  obtain ⟨p0, hp0m, hpeq⟩ := List.mem_map.mp hp'
                  have hpid2 : p.id = p0.id := by rw [← hpeq]; exact hgiid p0
                  obtain ⟨k, hk, hkid⟩ := h5 n0 hn0 p0 hp0m
                  exact ⟨k, le_trans hk ht.le, by rw [hpid2, hkid]⟩
                · rw [← heq, if_neg h0] at hp'
                  obtain ⟨k, hk, hkid⟩ := h5 n0 hn0 p hp'
                  exact ⟨k, le_trans hk ht.le, hkid⟩
              · intro c hc
                rcases List.mem_append.mp hc with hc1 | hc2
                · rcases h6 c hc1 with hd1 | ⟨k, hk, hkid⟩
                  · exact Or.inl hd1
                  · exact Or.inr ⟨k, le_trans hk ht.le, hkid⟩
                · rw [List.mem_singleton] at hc2
                  rw [hc2]
                  exact Or.inr ⟨t, le_refl t, rfl⟩
              · intro c hc
                rcases List.mem_append.mp hc with hc1 | hc2
                · obtain ⟨k, hk, hkid⟩ := h7 c hc1
                  exact ⟨k, le_trans hk ht.le, hkid⟩
                · rw [List.mem_singleton] at hc2
                  rw [hc2]
                  exact ⟨k0, le_trans hk0 ht.le, hpidstamp⟩
              · intro a b ha hb
                cases ha
            · rw [if_neg hp0]
              exact hreset
      · rw [if_neg hguard]
        exact hreset

theorem graphInv_step {a b : State} (hstep : Step a b) (h : GraphInv a) : GraphInv b := by
  cases hstep with
  | startConnection nid mx my => exact graphInv_startConnection nid mx my a h
  | startDisconnection nid pid mx my => exact graphInv_startDisconnection nid pid mx my a h
  | pointerMove mx my => exact graphInv_mouseMove mx my a h
  | endConnection t ht => exact graphInv_endConnection t a ht h
  | removeInput nid pid => exact graphInv_removeInput nid pid a h
  | moveNode nid px py => exact graphInv_moveNode nid px py a h

theorem graphInv_init : GraphInv initState := by
  refine ⟨by decide, by decide, by decide, by decide, ?_, ?_, ?_, ?_⟩
  · intro n hn p hp
    fin_cases hn
    · fin_cases hp
      exact ⟨1, by decide, inputStamp_one.symm⟩
    · fin_cases hp
      exact ⟨1, by decide, inputStamp_one.symm⟩
    · fin_cases hp
      · exact ⟨1, by decide, inputStamp_one.symm⟩
      · exact ⟨2, by decide, inputStamp_two.symm⟩
      · exact ⟨3, by decide, inputStamp_three.symm⟩
      · exact ⟨4, by decide, inputStamp_four.symm⟩
  · intro c hc
    fin_cases hc
    exact Or.inl rfl
  · intro c hc
    fin_cases hc
    exact ⟨1, by decide, inputStamp_one.symm⟩
  · intro a b ha hb
    cases ha

theorem graphInv_reachable {s : State} (h : Reachable s) : GraphInv s := by
  unfold Reachable at h
  induction h with
  | refl => exact graphInv_init
  | tail hab hbc ih => exact graphInv_step hbc ih

/-- Claim C1: in every state reachable from the initial graph through the
public operations, a port's connected flag is true iff exactly one
connection in the connection list targets its (node id, port id) pair. -/
theorem c1_port_edge_consistency (s : State) (hs : Reachable s) :
    ∀ n ∈ s.nodes, ∀ p ∈ n.inputs,
      (p.connected = true ↔ s.connections.countP (isTarget n.id p.id) = 1) := by
  intro n hn p hp
  have h4 := (graphInv_reachable hs).flagCount n hn p hp
  constructor
  · intro hc
    rw [hc, if_pos rfl] at h4
    exact h4
  · intro hcount
    cases hb : p.connected with
    | true => rfl
    | false =>
      rw [hb, if_neg (by decide)] at h4
      rw [h4] at hcount
      cases hcount

/-- Witness for C1 at the initial state: node 2's input-1 is connected and
exactly one seeded connection targets it. -/
theorem c1_port_edge_consistency_witness :
    ((⟨"input-1", true⟩ : NodeInput).connected = true ↔
      initState.connections.countP (isTarget "2" "input-1") = 1) :=
  c1_port_edge_consistency initState Relation.ReflTransGen.refl
    ⟨"2", 400, 300, "Code", "LTC", [⟨"input-1", true⟩]⟩ (by decide)
    ⟨"input-1", true⟩ (by decide)
